import Mathlib

/-!
Shallow embedding of the `rflyhigh/filemanager` storage gateway.

The repository is a Node/Express front-end over Backblaze B2.  Two server
variants live in the sources: the cache-based gateway (`src/index.js`, with an
earlier revision in `src/unnamed/part_000`) and the MongoDB-backed server
(second half of `src/models/File.js`, which also holds the mongoose `File`
schema).  Strings are modelled as lists of characters (`Str`), JavaScript
`Map`s as association lists, `Date.now()` as an explicit `Nat` parameter, and
every remote B2 call as a record of responses (`RemoteEnv` / `SrvEnv`)
consumed in program order, together with a trace of the calls issued.
-/

namespace FileManager

/-- JavaScript strings, modelled as lists of characters. -/
abbrev Str := List Char

/-! ### Association-list model of JavaScript `Map` -/

/-- `Map.get`: first binding for `k`, if any. -/
def mapFind (m : List (Str × α)) (k : Str) : Option α :=
  match m.find? (fun p => p.1 = k) with
  | some p => some p.2
  | none => none

/-- `Map.set`: replace the binding for `k`, or append a fresh one. -/
def mapSet (m : List (Str × α)) (k : Str) (v : α) : List (Str × α) :=
  match m with
  | [] => [(k, v)]
  | p :: ps => if p.1 = k then (k, v) :: ps else p :: mapSet ps k v

/-- `Map.delete`: drop every binding for `k`. -/
def mapDelete (m : List (Str × α)) (k : Str) : List (Str × α) :=
  m.filter (fun p => p.1 ≠ k)

/-! ### String primitives mirroring the JavaScript operations used -/

/-- `p` is a (list) prefix of `s`.  Written out so that all lemmas about it
are self-contained. -/
def Pre (p s : Str) : Prop := ∃ t, p ++ t = s

/-- Boolean prefix test (used where the JavaScript does a regex `^p` match or
`String.startsWith`). -/
def isPre : Str → Str → Bool
  | [], _ => true
  | _ :: _, [] => false
  | a :: as, b :: bs => a = b && isPre as bs

/-- `String.prototype.replace` with a plain-string pattern: replace the first
occurrence of `pat` (if any) by `rep`. -/
def replaceFirst (pat rep : Str) (s : Str) : Str :=
  if isPre pat s then rep ++ s.drop pat.length
  else
    match s with
    | [] => []
    | c :: cs => c :: replaceFirst pat rep cs

/-- `String.prototype.split(sep)` (JavaScript semantics: the result is always
non-empty; splitting the empty string yields `[""]`). -/
def splitOnC (c : Char) : Str → List Str
  | [] => [[]]
  | a :: as =>
    if a = c then [] :: splitOnC c as
    else
      match splitOnC c as with
      | [] => [[a]]
      | h :: t => (a :: h) :: t

/-- Lexicographic comparison of strings (for stating the tie-break order the
spec claims). -/
def strLe : Str → Str → Bool
  | [], _ => true
  | _ :: _, [] => false
  | a :: as, b :: bs =>
    if a = b then strLe as bs else decide (a < b)

/-! ### Rendering `Date.now()` into a filename (template literal of a number) -/

/-- Fuel-indexed decimal rendering (structural so that it reduces inside the
kernel); `fuel > n` always suffices. -/
def natToCharsAux : Nat → Nat → Str
  | 0, _ => []
  | fuel + 1, n =>
    if n < 10 then [Nat.digitChar n]
    else natToCharsAux fuel (n / 10) ++ [Nat.digitChar (n % 10)]

/-- Decimal rendering of a natural number, as JavaScript's number-to-string
conversion does inside a template literal. -/
def natToChars (n : Nat) : Str := natToCharsAux (n + 1) n

/-! ### Key derivation (`src/index.js`, POST /upload and POST /rename-file) -/

/-- ASCII alphanumeric test, the character class of the sanitizing regex
in both servers. -/
def isAsciiAlnum (c : Char) : Bool :=
  ('a' ≤ c && c ≤ 'z') || ('A' ≤ c && c ≤ 'Z') || ('0' ≤ c && c ≤ '9')

/-- `title.replace(/[^a-z0-9]/gi, '_').toLowerCase()` from `src/index.js`. -/
def sanitizeTitleIx (title : Str) : Str :=
  title.map (fun c => if isAsciiAlnum c then c.toLower else '_')

/-- `file.originalname.split('.').pop()` from `src/index.js`. -/
def extOfIx (origName : Str) : Str := (splitOnC '.' origName).getLastD []

/-- `` `${safeTitle}_${timestamp}.${extension}` `` from `src/index.js`
POST /upload. -/
def fullFilenameIx (now : Nat) (title origName : Str) : Str :=
  sanitizeTitleIx title ++ '_' :: natToChars now ++ '.' :: extOfIx origName

/-- The B2 storage key `` `files/${fullFilename}` `` derived by
`src/index.js` POST /upload. -/
def uploadKeyIx (now : Nat) (title origName : Str) : Str :=
  "files/".data ++ fullFilenameIx now title origName

/-- Timestamp segment reused by POST /rename-file:
`oldFileNameParts.pop().split('.')[0]`. -/
def renameTsOf (oldFileName : Str) : Str :=
  (splitOnC '.' ((splitOnC '_' oldFileName).getLastD [])).headD []

/-- Extension reused by POST /rename-file: `oldFileName.split('.').pop()`. -/
def renameExtOf (oldFileName : Str) : Str := (splitOnC '.' oldFileName).getLastD []

/-- `` `${safeTitle}_${timestamp}.${extension}` `` built by POST /rename-file
(`src/index.js` lines 479-488); the timestamp segment comes from the old
filename, not from a clock. -/
def renameNewFileName (oldFileName newTitle : Str) : Str :=
  sanitizeTitleIx newTitle ++ '_' :: renameTsOf oldFileName
    ++ '.' :: renameExtOf oldFileName

/-! ### Gateway state and remote interface (`src/index.js`) -/

/-- The JSON payload of `b2_authorize_account`, as cached by the gateway. -/
structure AuthData where
  apiUrl : Str
  downloadUrl : Str
  authorizationToken : Str
deriving DecidableEq, Repr

/-- One element of the `files` array of a `b2_list_file_names` response. -/
structure B2File where
  fileName : Str
  fileId : Str
  size : Nat
  uploadTimestamp : Nat
  contentType : Str
deriving DecidableEq, Repr

/-- The per-file view built by `listFiles` in `src/index.js`. -/
structure FileView where
  fileName : Str
  fullFileName : Str
  fileId : Str
  size : Nat
  uploadTimestamp : Nat
  contentType : Str
  title : Str
  url : Str
  account : Str
deriving DecidableEq, Repr

/-- The remote B2 calls the gateway can issue, in issue order. -/
inductive RemoteCall where
  | authorize
  | listFileNames
  | getUploadUrl
  | uploadFile (fileName : Str)
  | copyFile (sourceFileId : Str) (newFileName : Str)
  | deleteFileVersion (fileId : Str) (fileName : Str)
  | getDownloadAuthorization (fileNamePfx : Str)
deriving DecidableEq, Repr

/-- Responses the remote store will give to this request, consumed in program
order.  `…Status` fields are HTTP status codes (`res.ok` means 200-299). -/
structure RemoteEnv where
  authStatus : Nat
  authData : AuthData
  listStatus : Nat
  listFilesResp : List B2File
  uploadUrlStatus : Nat
  uploadStatus : Nat
  uploadFileId : Str
  copyStatus : Nat
  copyFileId : Str
  deleteStatus : Nat
deriving DecidableEq, Repr

/-- `fetch` response `.ok`. -/
def respOk (status : Nat) : Bool := 200 ≤ status && status < 300

/-- The module-level mutable maps of `src/index.js`.  The bucket-info cache
payload is irrelevant to every claim, so only its keys are tracked. -/
structure GatewayState where
  authTokenCache : List (Str × AuthData)
  fileListCache : List (Str × (Nat × List FileView))
  bucketInfoCache : List Str
deriving DecidableEq, Repr

/-- `FILE_CACHE_TTL = 5 * 60 * 1000`. -/
def FILE_CACHE_TTL : Nat := 5 * 60 * 1000

/-- The accounts of the default bucket configuration; `getAuthToken` likewise
only accepts these two account names. -/
def configuredAccount (account : Str) : Bool :=
  account = "account1".data || account = "account2".data

/-- The file-list cache key `` `files_${account}` ``. -/
def listKey (account : Str) : Str := "files_".data ++ account

/-- The bucket-info cache key `` `bucket_info_${account}` ``. -/
def bucketKey (account : Str) : Str := "bucket_info_".data ++ account

/-- `getAuthToken` from `src/index.js` (lines 82-117): serve from the token
cache, otherwise authorize and cache the result; the cache is never
invalidated.  The error strings are the thrown `Error` messages. -/
def getAuthToken (account : Str) (env : RemoteEnv) (st : GatewayState) :
    Except Str AuthData × GatewayState × List RemoteCall :=
  match mapFind st.authTokenCache account with
  | some d => (.ok d, st, [])
  | none =>
    if configuredAccount account then
      if respOk env.authStatus then
        (.ok env.authData,
         { st with authTokenCache := mapSet st.authTokenCache account env.authData },
         [.authorize])
      else (.error "Failed to authenticate with B2".data, st, [.authorize])
    else (.error "Invalid account".data, st, [])

/-- The per-file mapping inside `listFiles` (`src/index.js` lines 222-241). -/
def mkFileView (account : Str) (f : B2File) : FileView :=
  let filename := replaceFirst "files/".data [] f.fileName
  let rest := (splitOnC '_' filename).dropLast
  let title := rest.flatten |>.map (fun c => if c = '_' then ' ' else c)
  { fileName := filename
    fullFileName := f.fileName
    fileId := f.fileId
    size := f.size
    uploadTimestamp := f.uploadTimestamp
    contentType := f.contentType
    title := title
    url := "/files/".data ++ account ++ '/' :: filename
    account := account }

/-- Ordering used by `files.sort((a, b) => b.uploadTimestamp - a.uploadTimestamp)`:
newest first; the comparator returns 0 on ties, so a stable sort keeps the
response order for equal timestamps. -/
def tsGe (a b : FileView) : Prop := b.uploadTimestamp ≤ a.uploadTimestamp

instance : DecidableRel tsGe := fun _ _ => Nat.decLe _ _

instance : IsTotal FileView tsGe := ⟨fun a b => Nat.le_total b.uploadTimestamp a.uploadTimestamp⟩

instance : IsTrans FileView tsGe := ⟨fun _ _ _ h1 h2 => Nat.le_trans h2 h1⟩

/-- The `try` block of `listFiles` (`src/index.js` lines 201-252): authorize,
issue `b2_list_file_names`, map and sort the response, populate the cache; a
thrown error (failed authorization or non-2xx listing response) is caught by
the route and turned into `[]`, leaving the listing cache unwritten. -/
def listFetch (now : Nat) (account : Str) (env : RemoteEnv) (st0 : GatewayState) :
    List FileView × GatewayState × List RemoteCall :=
  let key := listKey account
  match getAuthToken account env st0 with
  | (.error _, st1, tr) => ([], st1, tr)
  | (.ok _, st1, tr) =>
    if respOk env.listStatus then
      let files := List.insertionSort tsGe (env.listFilesResp.map (mkFileView account))
      (files, { st1 with fileListCache := mapSet st1.fileListCache key (now, files) },
       tr ++ [.listFileNames])
    else ([], st1, tr ++ [.listFileNames])

/-- `listFiles` from `src/index.js` (lines 191-257): serve a fresh cache
entry, else fetch. -/
def listFilesRun (now : Nat) (account : Str) (env : RemoteEnv) (st : GatewayState) :
    List FileView × GatewayState × List RemoteCall :=
  match mapFind st.fileListCache (listKey account) with
  | some (ts, files) =>
    if now - ts < FILE_CACHE_TTL then (files, st, []) else listFetch now account env st
  | none => listFetch now account env st

/-- Result of the `src/index.js` POST /upload route. -/
inductive UploadResult where
  | badRequest (msg : Str)
  | serverError (msg : Str)
  | success (url : Str) (filename : Str) (b2FileId : Str)
deriving DecidableEq, Repr

/-- POST /upload from `src/index.js` (lines 373-462), after the multer
middleware accepted the file: validate, derive the storage key, authorize,
get an upload URL, upload, then clear both cache entries for the account
before responding. -/
def uploadHandlerIx (now : Nat) (account title origName : Str)
    (env : RemoteEnv) (st : GatewayState) :
    UploadResult × GatewayState × List RemoteCall :=
  if account = [] ∨ title = [] then (.badRequest "Missing required fields".data, st, [])
  else if ¬ configuredAccount account then
    (.badRequest "Invalid account selected".data, st, [])
  else
    let fullFilename := fullFilenameIx now title origName
    let b2FileName := "files/".data ++ fullFilename
    match getAuthToken account env st with
    | (.error e, st1, tr) => (.serverError e, st1, tr)
    | (.ok _, st1, tr) =>
      let tr := tr ++ [.getUploadUrl]
      if ¬ respOk env.uploadUrlStatus then
        (.serverError "Failed to get upload URL from B2".data, st1, tr)
      else
        let tr := tr ++ [.uploadFile b2FileName]
        if ¬ respOk env.uploadStatus then
          (.serverError "Failed to upload file to B2".data, st1, tr)
        else
          let st2 :=
            { st1 with
              fileListCache := mapDelete st1.fileListCache (listKey account)
              bucketInfoCache :=
                st1.bucketInfoCache.filter (fun k => k ≠ bucketKey account) }
          (.success ("/files/".data ++ account ++ '/' :: fullFilename)
            fullFilename env.uploadFileId, st2, tr)

/-- Result of the `src/index.js` POST /delete-file route. -/
inductive DeleteResult where
  | badRequest (msg : Str)
  | serverError (msg : Str)
  | success
deriving DecidableEq, Repr

/-- POST /delete-file from `src/index.js` (lines 553-601). -/
def deleteHandlerIx (account fileId fileName : Str)
    (env : RemoteEnv) (st : GatewayState) :
    DeleteResult × GatewayState × List RemoteCall :=
  if account = [] ∨ fileId = [] ∨ fileName = [] then
    (.badRequest "Missing required fields".data, st, [])
  else if ¬ configuredAccount account then
    (.badRequest "Invalid account selected".data, st, [])
  else
    match getAuthToken account env st with
    | (.error e, st1, tr) => (.serverError e, st1, tr)
    | (.ok _, st1, tr) =>
      let tr := tr ++ [.deleteFileVersion fileId fileName]
      if ¬ respOk env.deleteStatus then
        (.serverError "Failed to delete file from B2".data, st1, tr)
      else
        (.success,
         { st1 with
           fileListCache := mapDelete st1.fileListCache (listKey account)
           bucketInfoCache :=
             st1.bucketInfoCache.filter (fun k => k ≠ bucketKey account) },
         tr)

/-- Result of the `src/index.js` POST /rename-file route. -/
inductive RenameResult where
  | badRequest (msg : Str)
  | serverError (msg : Str)
  | success (newFileName : Str) (newFileId : Str)
deriving DecidableEq, Repr

/-- POST /rename-file from `src/index.js` (lines 465-550): derive the new
name (reusing the old timestamp segment), copy to the new key, delete the old
key, then clear the file-list cache entry before responding. -/
def renameHandlerIx (account fileId oldFileName newTitle : Str)
    (env : RemoteEnv) (st : GatewayState) :
    RenameResult × GatewayState × List RemoteCall :=
  if account = [] ∨ fileId = [] ∨ oldFileName = [] ∨ newTitle = [] then
    (.badRequest "Missing required fields".data, st, [])
  else if ¬ configuredAccount account then
    (.badRequest "Invalid account selected".data, st, [])
  else
    let newFileName := renameNewFileName oldFileName newTitle
    let oldB2FileName := "files/".data ++ oldFileName
    let newB2FileName := "files/".data ++ newFileName
    match getAuthToken account env st with
    | (.error e, st1, tr) => (.serverError e, st1, tr)
    | (.ok _, st1, tr) =>
      let tr := tr ++ [.copyFile fileId newB2FileName]
      if ¬ respOk env.copyStatus then
        (.serverError "Failed to copy file with new name".data, st1, tr)
      else
        let tr := tr ++ [.deleteFileVersion fileId oldB2FileName]
        if ¬ respOk env.deleteStatus then
          (.serverError "Failed to delete old file version".data, st1, tr)
        else
          (.success newFileName env.copyFileId,
           { st1 with fileListCache := mapDelete st1.fileListCache (listKey account) },
           tr)

/-- `limits: { fileSize: 1000 * 1024 * 1024 }` from `src/index.js` line 26
and `src/models/File.js` line 118. -/
def MULTER_FILE_SIZE_LIMIT : Nat := 1000 * 1024 * 1024

/-- Outcome of an upload request seen from the client: either the multer
middleware rejected the file for size, or the route handler ran. -/
inductive UploadOutcome where
  | fileTooLarge
  | handled (r : UploadResult)
deriving DecidableEq, Repr

/-- Modelled from the multer/busboy interface: `upload.single('file')` streams
the file into memory and errors with `LIMIT_FILE_SIZE` before the route
handler runs whenever the file exceeds `limits.fileSize`; otherwise the
handler runs with the buffered file. -/
def uploadRequestIx (now : Nat) (account title origName : Str) (size : Nat)
    (env : RemoteEnv) (st : GatewayState) :
    UploadOutcome × GatewayState × List RemoteCall :=
  if size > MULTER_FILE_SIZE_LIMIT then (.fileTooLarge, st, [])
  else
    let (r, st', tr) := uploadHandlerIx now account title origName env st
    (.handled r, st', tr)

/-! ### Folder store (`src/models/File.js`, mongoose `Folder` routes) -/

/-- A `Folder` document: name, optional parent reference, materialized path,
owning account. -/
structure Folder where
  id : Nat
  name : Str
  parent : Option Nat
  path : Str
  account : Str
deriving DecidableEq, Repr

/-- The folder collection. -/
abbrev FolderDB := List Folder

/-- `Folder.findById`. -/
def findFolder (db : FolderDB) (i : Nat) : Option Folder :=
  db.find? (fun f => f.id = i)

/-- POST /api/folders (`src/models/File.js` lines 572-611): reject an empty
name, resolve the parent (404 when missing), materialize
`path = parentFolder.path + "/" + name`, insert.  `none` models the error
responses. -/
def createFolderRoute (db : FolderDB) (name : Str) (parent : Option Nat)
    (account : Str) (newId : Nat) : Option FolderDB :=
  if name = [] then none
  else
    match parent with
    | none => some (db ++ [⟨newId, name, none, name, account⟩])
    | some p =>
      match findFolder db p with
      | none => none
      | some pf => some (db ++ [⟨newId, name, some p, pf.path ++ '/' :: name, account⟩])

/-- The new materialized path computed by PUT /api/folders/:id:
`folder.parent ? (await Folder.findById(folder.parent)).path + "/" + name : name`.
`none` models the crash when the parent reference is dangling. -/
def newPathFor (db : FolderDB) (f : Folder) (newName : Str) : Option Str :=
  match f.parent with
  | none => some newName
  | some p => (findFolder db p).map (fun pf => pf.path ++ '/' :: newName)

/-- Characters that are special in the regular-expression dialect the
folder query interpolates into (`$regex` with a template-literal pattern). -/
def regexMetaChars : Str :=
  ['\\', '^', '$', '.', '|', '?', '*', '+', '(', ')', '[', ']',
   Char.ofNat 123, Char.ofNat 125]

/-- Whether a string, used verbatim as a regex pattern, matches itself
literally: true exactly when it contains no regex metacharacter. -/
def plainPattern (s : Str) : Bool :=
  s.all (fun c => !(regexMetaChars.contains c))

/-- The two updates performed by PUT /api/folders/:id: first
`folder.save()` with the new name and path, then `updateSubfolderPaths`,
which selects every folder whose stored path matches the interpolated regex
`` `^${oldPath}/` `` and rewrites it via
`subfolder.path.replace(oldPath, newPath)` (a plain-string first-occurrence
replace).  For a metacharacter-free `oldPath` — the only case in which
`renameFolderRoute` below produces a result — the anchored regex is exactly
the literal prefix test used here. -/
def applyRename (db : FolderDB) (i : Nat) (oldPath newPath newName : Str) :
    FolderDB :=
  let db1 := db.map (fun g => if g.id = i then { g with name := newName, path := newPath } else g)
  db1.map (fun g =>
    if isPre (oldPath ++ ['/']) g.path then
      { g with path := replaceFirst oldPath newPath g.path }
    else g)

/-- PUT /api/folders/:id (`src/models/File.js` lines 650-695).  `none`
covers the error responses (empty name, unknown folder, dangling parent)
and additionally the inputs this model does not cover: when the old path
contains a regex metacharacter, the interpolated `` `^${oldPath}/` ``
pattern does not match the old path's extensions literally (the real route
then mis-selects folders, or rejects mid-way on an invalid pattern after
the folder itself was already renamed), so the model is defined only on
metacharacter-free old paths, where the selection is the literal prefix
test of `applyRename`. -/
def renameFolderRoute (db : FolderDB) (i : Nat) (newName : Str) :
    Option FolderDB :=
  if newName = [] then none
  else
    match findFolder db i with
    | none => none
    | some f =>
      if plainPattern f.path then
        (newPathFor db f newName).map (fun np => applyRename db i f.path np newName)
      else none

/-- The folder-path invariant claimed by the spec:
`F.path == (F.parent ? F.parent.path + "/" + F.name : F.name)`. -/
def ParentOk (db : FolderDB) (f : Folder) : Prop :=
  match f.parent with
  | none => f.path = f.name
  | some p => ∃ g ∈ db, g.id = p ∧ f.path = g.path ++ '/' :: f.name

instance (db : FolderDB) (f : Folder) : Decidable (ParentOk db f) :=
  match hp : f.parent with
  | none => decidable_of_iff (f.path = f.name) (by simp [ParentOk, hp])
  | some p =>
    decidable_of_iff (∃ g ∈ db, g.id = p ∧ f.path = g.path ++ '/' :: f.name)
      (by simp [ParentOk, hp])

/-- The invariant over the whole collection. -/
def PathInv (db : FolderDB) : Prop := ∀ f ∈ db, ParentOk db f

instance (db : FolderDB) : Decidable (PathInv db) :=
  inferInstanceAs (Decidable (∀ f ∈ db, ParentOk db f))

/-! ### Upload pipeline of the MongoDB server (`src/models/File.js`) -/

/-- A mongoose `File` document as built by POST /upload (schema at the top of
`src/models/File.js`).  The fractional seconds of `ffprobe` durations are
immaterial to every claim, so durations are `Nat`. -/
structure FileRecord where
  title : Str
  fileName : Str
  fullFileName : Str
  fileId : Str
  size : Nat
  contentType : Str
  account : Str
  url : Str
  thumbnailUrl : Option Str
  folder : Option Str
  duration : Option Nat
  uploadTimestamp : Nat
deriving DecidableEq, Repr

/-- Observable actions of the MongoDB server's upload route, in order. -/
inductive SrvAction where
  | getUploadUrl
  | b2Upload (fileName : Str)
  | ffprobe
  | thumbnailUpload (fileName : Str)
  | saveRecord (rec : FileRecord)
  | b2Delete (fileId : Str) (fileName : Str)
  | unlinkTemp
deriving DecidableEq, Repr

/-- Whether an action is the remote B2 upload of the staged file. -/
def SrvAction.isB2Upload : SrvAction → Bool
  | .b2Upload _ => true
  | _ => false

/-- Whether an action is a remote B2 delete (the cleanup the spec calls for
on commit failure). -/
def SrvAction.isB2Delete : SrvAction → Bool
  | .b2Delete _ _ => true
  | _ => false

/-- Responses of the environment to the MongoDB server's upload route.
`probeDuration = none` models an `ffprobe` error (the code resolves `null`);
`thumbOk = false` models any failure inside `generateVideoThumbnail`, which
likewise resolves `null`.  `saveOk = false` models a rejected
`fileRecord.save()` with message `saveErr`. -/
structure SrvEnv where
  uploadUrlStatus : Nat
  uploadStatus : Nat
  uploadFileId : Str
  probeDuration : Option Nat
  thumbOk : Bool
  saveOk : Bool
  saveErr : Str
deriving DecidableEq, Repr

/-- Result of the MongoDB server's POST /upload. -/
inductive SrvResult where
  | badRequest (msg : Str)
  | serverError (msg : Str)
  | created (rec : FileRecord)
deriving DecidableEq, Repr

/-- `fileTitle.replace(/[^a-zA-Z0-9]/g, '_')` from `src/models/File.js`
line 753 (case preserved, unlike the other server). -/
def sanitizeSrv (title : Str) : Str :=
  title.map (fun c => if isAsciiAlnum c then c else '_')

/-- Node's `path.extname` for ordinary filenames: the last `'.'`-suffix
including the dot, empty when there is no dot or the only dot leads the
basename. -/
def extnameSrv (s : Str) : Str :=
  match splitOnC '.' s with
  | [] => []
  | [_] => []
  | [[], _] => []
  | ps => '.' :: ps.getLastD []

/-- Node's `path.basename(name, path.extname(name))`: the name with its
extension removed (used when no title is supplied). -/
def basenameNoExt (s : Str) : Str :=
  s.take (s.length - (extnameSrv s).length)

/-- POST /upload of the MongoDB server (`src/models/File.js` lines 733-832):
derive the key, upload to B2, enrich video files best-effort, save the
record; the catch block only unlinks the temp file. -/
def serverUploadRun (now : Nat) (account : Str) (title : Option Str)
    (origName mimetype : Str) (size : Nat) (folderId : Option Str)
    (env : SrvEnv) : SrvResult × List SrvAction :=
  if account = [] then (.badRequest "Missing required fields".data, [])
  else if ¬ configuredAccount account then
    (.badRequest "Invalid account selected".data, [])
  else
    let fileTitle :=
      match title with
      | some t => if t = [] then basenameNoExt origName else t
      | none => basenameNoExt origName
    let filename := sanitizeSrv fileTitle ++ '_' :: natToChars now
    let fullFilename := filename ++ extnameSrv origName
    let b2FileName := "files/".data ++ fullFilename
    if ¬ respOk env.uploadUrlStatus then
      (.serverError "Failed to get upload URL from B2".data, [.getUploadUrl, .unlinkTemp])
    else if ¬ respOk env.uploadStatus then
      (.serverError "Failed to upload file to B2".data,
       [.getUploadUrl, .b2Upload b2FileName, .unlinkTemp])
    else
      let rec0 : FileRecord :=
        { title := fileTitle
          fileName := fullFilename
          fullFileName := b2FileName
          fileId := env.uploadFileId
          size := size
          contentType := mimetype
          account := account
          url := "/files/".data ++ account ++ '/' :: fullFilename
          thumbnailUrl := none
          folder := folderId
          duration := none
          uploadTimestamp := now }
      let (rec1, trV) :=
        if isPre "video/".data mimetype then
          let recD :=
            match env.probeDuration with
            | some d => if d ≠ 0 then { rec0 with duration := some d } else rec0
            | none => rec0
          if env.thumbOk then
            ({ recD with
               thumbnailUrl :=
                 some ("/thumbnails/".data ++ account ++ '/' :: (filename ++ ".jpg".data)) },
             [.ffprobe, .thumbnailUpload ("thumbnails/".data ++ filename ++ ".jpg".data)])
          else (recD, [.ffprobe])
        else (rec0, [])
      let tr0 := [SrvAction.getUploadUrl, .b2Upload b2FileName] ++ trV
      if env.saveOk then
        (.created rec1, tr0 ++ [.saveRecord rec1, .unlinkTemp])
      else
        (.serverError env.saveErr, tr0 ++ [.unlinkTemp])



/-- The MongoDB server's upload route behind its multer middleware
(`src/models/File.js` lines 116-119): `none` models the `LIMIT_FILE_SIZE`
rejection issued before the handler runs. -/
def uploadRequestSrv (now : Nat) (account : Str) (title : Option Str)
    (origName mimetype : Str) (size : Nat) (folderId : Option Str)
    (env : SrvEnv) : Option (SrvResult × List SrvAction) :=
  if size > MULTER_FILE_SIZE_LIMIT then none
  else some (serverUploadRun now account title origName mimetype size folderId env)

/-- The per-folder effect of PUT /api/folders/:id (the composition of the
two passes of `applyRename`; like `applyRename`, its prefix test coincides
with the interpolated regex selection exactly on the metacharacter-free old
paths to which `renameFolderRoute` is restricted). -/
def updFolder (i : Nat) (oldPath np newName : Str) (g : Folder) : Folder :=
  let g1 := if g.id = i then { g with name := newName, path := np } else g
  if isPre (oldPath ++ ['/']) g1.path then
    { g1 with path := replaceFirst oldPath np g1.path }
  else g1

/-! ### Concrete instances used by counterexamples and witnesses -/

/-- A cached authorization payload. -/
def tokEx : AuthData := ⟨"api".data, "dl".data, "tok".data⟩

/-- Gateway state with a cached token for `account1` and empty listing
caches. -/
def stTokEx : GatewayState := ⟨[("account1".data, tokEx)], [], []⟩

/-- Gateway state with all three caches empty. -/
def stEmptyEx : GatewayState := ⟨[], [], []⟩

/-- A remote environment where every call succeeds; the listing holds two
files with equal upload timestamps whose keys arrive in descending order. -/
def envOkEx : RemoteEnv :=
  { authStatus := 200
    authData := tokEx
    listStatus := 200
    listFilesResp :=
      [⟨"files/b_5.png".data, "idb".data, 10, 5, "image/png".data⟩,
       ⟨"files/a_5.png".data, "ida".data, 11, 5, "image/png".data⟩]
    uploadUrlStatus := 200
    uploadStatus := 200
    uploadFileId := "up1".data
    copyStatus := 200
    copyFileId := "cp1".data
    deleteStatus := 200 }

/-- The successful environment, except that `b2_list_file_names` rejects the
authorization with a 401. -/
def env401Ex : RemoteEnv := { envOkEx with listStatus := 401 }

/-- The successful environment, except that `b2_list_file_names` fails with
a 500. -/
def envList500Ex : RemoteEnv := { envOkEx with listStatus := 500 }

/-- The successful environment, except that `b2_delete_file_version` rejects
the authorization with a 401. -/
def envDel401Ex : RemoteEnv := { envOkEx with deleteStatus := 401 }

/-- Server-upload environment: remote upload succeeds, video enrichment
fails, the database write is rejected. -/
def senvSaveFailEx : SrvEnv :=
  ⟨200, 200, "fid".data, none, false, false, "db down".data⟩

/-- Server-upload environment: remote upload succeeds, `ffprobe` errors,
thumbnail generation fails, the database write succeeds. -/
def senvEnrichFailEx : SrvEnv :=
  ⟨200, 200, "fid".data, none, false, true, "unused".data⟩

/-- Server-upload environment: remote upload succeeds, `ffprobe` reports a
duration of 5, thumbnail generation fails, the database write succeeds. -/
def senvThumbFailEx : SrvEnv :=
  ⟨200, 200, "fid".data, some 5, false, true, "unused".data⟩

/-- Folder database built by three POST /api/folders calls: `a` under
`account1`, a second `a` under `account2`, and `b` inside the latter.  All
three creations succeed and the path invariant holds. -/
def dbColl : FolderDB :=
  [⟨1, "a".data, none, "a".data, "account1".data⟩,
   ⟨2, "a".data, none, "a".data, "account2".data⟩,
   ⟨3, "b".data, some 2, "a/b".data, "account2".data⟩]

/-- The first creation step towards `dbColl`. -/
def dbC1 : FolderDB := [⟨1, "a".data, none, "a".data, "account1".data⟩]

/-- The second creation step towards `dbColl`. -/
def dbC2 : FolderDB :=
  [⟨1, "a".data, none, "a".data, "account1".data⟩,
   ⟨2, "a".data, none, "a".data, "account2".data⟩]

/-- The result of renaming folder 1 of `dbColl` to `x`: the cascade rewrites
the unrelated folder 3 (owned by `account2`), whose parent still has path
`a`, breaking the invariant. -/
def dbCollRenamed : FolderDB :=
  [⟨1, "x".data, none, "x".data, "account1".data⟩,
   ⟨2, "a".data, none, "a".data, "account2".data⟩,
   ⟨3, "b".data, some 2, "x/b".data, "account2".data⟩]

/-- The result of renaming folder 1 of `dbPair` to `c`. -/
def dbPairRenamed : FolderDB :=
  [⟨1, "c".data, none, "c".data, "account1".data⟩,
   ⟨2, "b".data, some 1, "c/b".data, "account1".data⟩]

/-- A two-folder database (`a` with child `b`) for the rename witness. -/
def dbPair : FolderDB :=
  [⟨1, "a".data, none, "a".data, "account1".data⟩,
   ⟨2, "b".data, some 1, "a/b".data, "account1".data⟩]

/-! ### Formalized spec claims that the code falsifies -/

/-- The claim that a remote call receiving an authorization-rejected response
is retried exactly once after invalidating the token: under it, a listing run
whose remote listing responds 401 must issue the `b2_list_file_names` call
twice. -/
def claimAuthRetry : Prop :=
  ∀ (now : Nat) (account : Str) (env : RemoteEnv) (st : GatewayState),
    mapFind st.fileListCache (listKey account) = none →
    mapFind st.authTokenCache account ≠ none →
    env.listStatus = 401 →
    ((listFilesRun now account env st).2.2.count .listFileNames = 2)

/-- The claim that renaming derives the new storage key from a fresh
timestamp taken at rename time: for a rename of `files/a_111.png` to title
`"b"` happening at clock value `now` (with every remote call succeeding and
the token cached), the copy must target `files/b_<now>.png` and the delete
the old key. -/
def claimRenameFreshTs : Prop :=
  ∀ (now : Nat) (fid : Str), fid ≠ [] →
    (renameHandlerIx "account1".data fid "a_111.png".data "b".data envOkEx stTokEx).2.2 =
      [.copyFile fid ("files/b_".data ++ natToChars now ++ ".png".data),
       .deleteFileVersion fid "files/a_111.png".data]

/-- The claim that a failed metadata commit after a successful remote upload
triggers best-effort cleanup: the trace must then contain a remote delete. -/
def claimCommitCleanup : Prop :=
  ∀ (now : Nat) (account : Str) (title : Option Str)
    (origName mimetype : Str) (size : Nat) (folderId : Option Str) (env : SrvEnv),
    account ≠ [] → configuredAccount account = true →
    respOk env.uploadUrlStatus = true → respOk env.uploadStatus = true →
    env.saveOk = false →
    ((serverUploadRun now account title origName mimetype size folderId env).2.any
      (fun a => SrvAction.isB2Delete a)) = true

/-- The claim that folder creation establishes the path invariant and every
`renameFolder` preserves it. -/
def claimRenamePreservesInv : Prop :=
  ∀ (db : FolderDB) (i : Nat) (newName : Str) (db' : FolderDB),
    renameFolderRoute db i newName = some db' →
    PathInv db → PathInv db'

/-- The claim that listings break upload-timestamp ties by ascending storage
key. -/
def claimListTieBreak : Prop :=
  ∀ (now : Nat) (account : Str) (env : RemoteEnv) (st : GatewayState),
    mapFind st.fileListCache (listKey account) = none →
    (listFilesRun now account env st).1.Pairwise
      (fun a b => a.uploadTimestamp = b.uploadTimestamp →
        strLe a.fullFileName b.fullFileName = true)

/-! ### Helper lemmas -/

theorem mapFind_mapDelete (m : List (Str × α)) (k : Str) :
    mapFind (mapDelete m k) k = none := by
  induction m with
  | nil => rfl
  | cons p ps ih =>
    by_cases h : p.1 = k
    · simpa [mapDelete, mapFind, h] using ih
    · simpa [mapDelete, mapFind, h] using ih

theorem mapFind_mapSet (m : List (Str × α)) (k : Str) (v : α) :
    mapFind (mapSet m k v) k = some v := by
  induction m with
  | nil => simp [mapSet, mapFind]
  | cons p ps ih =>
    by_cases h : p.1 = k
    · simp [mapSet, mapFind, h]
    · simpa [mapSet, mapFind, h] using ih

theorem isPre_iff (p s : Str) : isPre p s = true ↔ Pre p s := by
  induction p generalizing s with
  | nil => simp [isPre, Pre]
  | cons a as ih =>
    cases s with
    | nil =>
      simp only [isPre, Pre]
      constructor
      · intro h; cases h
      · rintro ⟨t, ht⟩; cases ht
    | cons b bs =>
      simp only [isPre, Bool.and_eq_true, decide_eq_true_eq, ih, Pre]
      constructor
      · rintro ⟨rfl, t, rfl⟩; exact ⟨t, rfl⟩
      · rintro ⟨t, ht⟩
        injection ht with h1 h2
        exact ⟨h1, t, h2⟩

theorem Pre.length_le {p s : Str} (h : Pre p s) : p.length ≤ s.length := by
  obtain ⟨t, rfl⟩ := h
  simp

theorem pre_append (p t : Str) : Pre p (p ++ t) := ⟨t, rfl⟩

theorem pre_refl (p : Str) : Pre p p := ⟨[], by simp⟩

theorem pre_cancel_left {a u v : Str} : Pre (a ++ u) (a ++ v) ↔ Pre u v := by
  constructor
  · rintro ⟨t, ht⟩
    rw [List.append_assoc] at ht
    exact ⟨t, List.append_cancel_left ht⟩
  · rintro ⟨t, rfl⟩
    exact ⟨t, by simp⟩

theorem pre_trans {a b c : Str} (h1 : Pre a b) (h2 : Pre b c) : Pre a c := by
  obtain ⟨t, rfl⟩ := h1
  obtain ⟨u, rfl⟩ := h2
  exact ⟨t ++ u, by simp⟩

/-- Two prefixes of the same list are comparable. -/
theorem pre_comparable {a b s : Str} (ha : Pre a s) (hb : Pre b s) :
    Pre a b ∨ Pre b a := by
  obtain ⟨u, hu⟩ := ha
  obtain ⟨v, hv⟩ := hb
  induction a generalizing b s with
  | nil => exact Or.inl ⟨b, by simp⟩
  | cons x xs ih =>
    cases b with
    | nil => exact Or.inr ⟨x :: xs, by simp⟩
    | cons y ys =>
      cases s with
      | nil => cases hu
      | cons z zs =>
        injection hu with hx hu'
        injection hv with hy hv'
        subst hx; subst hy
        rcases ih (b := ys) (s := zs) hu' hv' with h | h
        · obtain ⟨t, ht⟩ := h
          exact Or.inl ⟨t, by simp [ht]⟩
        · obtain ⟨t, ht⟩ := h
          exact Or.inr ⟨t, by simp [ht]⟩

theorem pre_eq_of_length {a b : Str} (h : Pre a b) (hl : b.length ≤ a.length) :
    a = b := by
  obtain ⟨t, rfl⟩ := h
  have ht : t = [] := by
    cases t with
    | nil => rfl
    | cons c cs => exfalso; simp at hl
  simp [ht]

/-- A prefix of `b ++ [x]` that is no longer than `b` is a prefix of `b`. -/
theorem pre_of_pre_concat {a b : Str} {x : Char}
    (h : Pre a (b ++ [x])) (hl : a.length ≤ b.length) : Pre a b := by
  obtain ⟨t, ht⟩ := h
  cases t using List.reverseRecOn with
  | nil =>
    simp only [List.append_nil] at ht
    subst ht
    simp at hl
  | append_singleton t' c =>
    rw [← List.append_assoc] at ht
    have h2 := List.append_inj_right' ht (by rfl)
    have h1 := List.append_inj_left' ht (by rfl)
    exact ⟨t', h1⟩

theorem mem_of_pre {a s : Str} {x : Char} (h : Pre a s) (hx : x ∈ a) : x ∈ s := by
  obtain ⟨t, rfl⟩ := h
  exact List.mem_append_left _ hx

theorem replaceFirst_of_pre {pat s : Str} (rep : Str) (h : Pre pat s) :
    replaceFirst pat rep s = rep ++ s.drop pat.length := by
  rw [replaceFirst.eq_def, if_pos ((isPre_iff pat s).mpr h)]

theorem natToCharsAux_congr :
    ∀ f1 f2 n, n < f1 → n < f2 → natToCharsAux f1 n = natToCharsAux f2 n := by
  intro f1
  induction f1 with
  | zero => intro f2 n h1; omega
  | succ f ih =>
    intro f2 n h1 h2
    cases f2 with
    | zero => omega
    | succ f2' =>
      by_cases hn : n < 10
      · simp [natToCharsAux, hn]
      · have hd : n / 10 < n := Nat.div_lt_self (by omega) (by omega)
        simp only [natToCharsAux, if_neg hn]
        rw [ih f2' (n / 10) (by omega) (by omega)]

theorem natToChars_small {n : Nat} (h : n < 10) :
    natToChars n = [Nat.digitChar n] := by
  rw [natToChars]; simp [natToCharsAux, h]

theorem natToChars_large {n : Nat} (h : ¬ n < 10) :
    natToChars n = natToChars (n / 10) ++ [Nat.digitChar (n % 10)] := by
  have hd : n / 10 < n := Nat.div_lt_self (by omega) (by omega)
  have step : natToCharsAux (n + 1) n =
      natToCharsAux n (n / 10) ++ [Nat.digitChar (n % 10)] := by
    simp [natToCharsAux, h]
  rw [natToChars, natToChars, step,
    natToCharsAux_congr n (n / 10 + 1) (n / 10) (by omega) (by omega)]

theorem natToChars_ne_nil (n : Nat) : natToChars n ≠ [] := by
  by_cases h : n < 10
  · rw [natToChars_small h]; simp
  · rw [natToChars_large h]; simp

theorem digitChar_mem_digits {c : Char} {d : Nat} (hd : d < 10)
    (h : c = Nat.digitChar d) : c ∈ ['0','1','2','3','4','5','6','7','8','9'] := by
  interval_cases d <;> simp_all [Nat.digitChar]

theorem mem_natToChars_digit {c : Char} {n : Nat} (h : c ∈ natToChars n) :
    c ∈ ['0','1','2','3','4','5','6','7','8','9'] := by
  induction n using Nat.strong_induction_on with
  | _ n ih =>
    by_cases hn : n < 10
    · rw [natToChars_small hn] at h
      simp only [List.mem_singleton] at h
      exact digitChar_mem_digits hn h
    · rw [natToChars_large hn] at h
      rcases List.mem_append.mp h with h' | h'
      · exact ih (n / 10) (Nat.div_lt_self (by omega) (by omega)) h'
      · simp only [List.mem_singleton] at h'
        exact digitChar_mem_digits (Nat.mod_lt _ (by omega)) h'

theorem dot_not_mem_natToChars (n : Nat) : ('.' : Char) ∉ natToChars n := by
  intro h
  have := mem_natToChars_digit h
  simp at this

theorem digitChar_inj {a b : Nat} (ha : a < 10) (hb : b < 10)
    (h : Nat.digitChar a = Nat.digitChar b) : a = b := by
  interval_cases a <;> interval_cases b <;> simp_all [Nat.digitChar]

theorem natToChars_len_two {n : Nat} (h : ¬ n < 10) :
    2 ≤ (natToChars n).length := by
  rw [natToChars_large h]
  have := natToChars_ne_nil (n / 10)
  cases hc : natToChars (n / 10) with
  | nil => exact absurd hc this
  | cons c cs => simp

theorem natToChars_inj : ∀ m n : Nat, natToChars m = natToChars n → m = n := by
  intro m
  induction m using Nat.strong_induction_on with
  | _ m ih =>
    intro n h
    by_cases hm : m < 10 <;> by_cases hn : n < 10
    · rw [natToChars_small hm, natToChars_small hn] at h
      simp only [List.cons.injEq, and_true] at h
      exact digitChar_inj hm hn h
    · exfalso
      have h2 := natToChars_len_two hn
      rw [← h, natToChars_small hm] at h2
      simp at h2
    · exfalso
      have h2 := natToChars_len_two hm
      rw [h, natToChars_small hn] at h2
      simp at h2
    · rw [natToChars_large hm, natToChars_large hn] at h
      have h' := congrArg List.reverse h
      simp only [List.reverse_append, List.reverse_singleton,
        List.singleton_append] at h'
      injection h' with hd tl
      have hmod : m % 10 = n % 10 :=
        digitChar_inj (Nat.mod_lt _ (by omega)) (Nat.mod_lt _ (by omega)) hd
      have hdiv : m / 10 = n / 10 := by
        have h3 := congrArg List.reverse tl
        simp only [List.reverse_reverse] at h3
        exact ih (m / 10) (Nat.div_lt_self (by omega) (by omega)) (n / 10) h3
      omega

/-- Splitting off suffixes that are empty or start with a dot, from bodies that
contain no dot: the decomposition is unique.  This is what makes the
`<millis>.<ext>` layout collision-free across timestamps. -/
theorem nodot_append_inj {a b u v : Str}
    (ha : ('.' : Char) ∉ a) (hb : ('.' : Char) ∉ b)
    (hu : u = [] ∨ ∃ u', u = '.' :: u') (hv : v = [] ∨ ∃ v', v = '.' :: v')
    (h : a ++ u = b ++ v) : a = b ∧ u = v := by
  induction a generalizing b with
  | nil =>
    cases b with
    | nil => simpa using h
    | cons d ds =>
      exfalso
      simp only [List.nil_append] at h
      rcases hu with rfl | ⟨u', rfl⟩
      · exact absurd (congrArg List.length h) (by simp)
      · injection h with h1 _
        exact hb (by simp [← h1])
  | cons c cs ih =>
    cases b with
    | nil =>
      exfalso
      simp only [List.nil_append] at h
      rcases hv with rfl | ⟨v', rfl⟩
      · exact absurd (congrArg List.length h) (by simp)
      · injection h with h1 _
        exact ha (by simp [h1])
    | cons d ds =>
      injection h with h1 h2
      subst h1
      have hr := ih (fun hm => ha (List.mem_cons_of_mem _ hm))
        (fun hm => hb (List.mem_cons_of_mem _ hm)) h2
      exact ⟨by rw [hr.1], hr.2⟩

theorem extnameSrv_shape (s : Str) :
    extnameSrv s = [] ∨ ∃ e, extnameSrv s = '.' :: e := by
  unfold extnameSrv
  split
  · exact Or.inl rfl
  · exact Or.inl rfl
  · exact Or.inl rfl
  · exact Or.inr ⟨_, rfl⟩

/-! ### C7: storage keys never collide across timestamps -/

/-- C7: two uploads with identical titles whose key-derivation timestamps
differ derive different storage keys, in both servers (the original
filenames may even differ); and the key has the layout
`files/<sanitized-title>_<unixMillis>.<ext>` with the extension taken from
the original filename. -/
theorem uploadKey_timestamp_unique (t1 t2 : Nat) (title o1 o2 : Str)
    (h : t1 ≠ t2) :
    uploadKeyIx t1 title o1 ≠ uploadKeyIx t2 title o2 ∧
    uploadKeyIx t1 title o1 =
      "files/".data ++ sanitizeTitleIx title ++ '_' :: natToChars t1
        ++ '.' :: extOfIx o1 ∧
    "files/".data ++ (sanitizeSrv title ++ '_' :: natToChars t1) ++ extnameSrv o1 ≠
      "files/".data ++ (sanitizeSrv title ++ '_' :: natToChars t2) ++ extnameSrv o2 := by
  refine ⟨?_, rfl, ?_⟩
  · intro heq
    apply h
    unfold uploadKeyIx fullFilenameIx at heq
    have h1 := List.append_cancel_left heq
    rw [List.append_assoc, List.append_assoc] at h1
    have h2 := List.append_cancel_left h1
    rw [List.cons_append, List.cons_append] at h2
    injection h2 with _ h3
    have h4 := nodot_append_inj (dot_not_mem_natToChars t1) (dot_not_mem_natToChars t2)
      (Or.inr ⟨_, rfl⟩) (Or.inr ⟨_, rfl⟩) h3
    exact natToChars_inj _ _ h4.1
  · intro heq
    apply h
    rw [List.append_assoc "files/".data (sanitizeSrv title ++ '_' :: natToChars t1)
          (extnameSrv o1),
        List.append_assoc "files/".data (sanitizeSrv title ++ '_' :: natToChars t2)
          (extnameSrv o2)] at heq
    have h1 := List.append_cancel_left heq
    rw [List.append_assoc (sanitizeSrv title) ('_' :: natToChars t1) (extnameSrv o1),
        List.append_assoc (sanitizeSrv title) ('_' :: natToChars t2) (extnameSrv o2)] at h1
    have h2 := List.append_cancel_left h1
    rw [List.cons_append, List.cons_append] at h2
    injection h2 with _ h3
    have h4 := nodot_append_inj (dot_not_mem_natToChars t1) (dot_not_mem_natToChars t2)
      (extnameSrv_shape o1) (extnameSrv_shape o2) h3
    exact natToChars_inj _ _ h4.1

/-- Witness for C7 at timestamps 1 and 2, title `"a"`, filename `"f.png"`. -/
theorem uploadKey_timestamp_unique_witness :
    uploadKeyIx 1 "a".data "f.png".data ≠ uploadKeyIx 2 "a".data "f.png".data :=
  (uploadKey_timestamp_unique 1 2 "a".data "f.png".data "f.png".data (by decide)).1

/-! ### C10: the multer size limit guards both upload routes -/

/-- C10: a file above `1000 * 1024 * 1024` bytes is rejected by the multer
middleware before the route handler runs — no remote call, no cache change,
and in the MongoDB server no metadata write; a file at or below the limit is
never rejected for size. -/
theorem upload_size_limit (now : Nat) (account title origName : Str)
    (size : Nat) (env : RemoteEnv) (st : GatewayState)
    (mimetype : Str) (titleOpt : Option Str) (folderId : Option Str)
    (senv : SrvEnv) :
    (MULTER_FILE_SIZE_LIMIT < size →
      uploadRequestIx now account title origName size env st =
        (.fileTooLarge, st, []) ∧
      uploadRequestSrv now account titleOpt origName mimetype size folderId senv = none) ∧
    (size ≤ MULTER_FILE_SIZE_LIMIT →
      (uploadRequestIx now account title origName size env st).1 ≠ .fileTooLarge ∧
      (uploadRequestSrv now account titleOpt origName mimetype size folderId senv).isSome) := by
  constructor
  · intro hgt
    constructor
    · unfold uploadRequestIx
      rw [if_pos (by omega)]
    · unfold uploadRequestSrv
      rw [if_pos (by omega)]
  · intro hle
    constructor
    · unfold uploadRequestIx
      rw [if_neg (by omega)]
      simp
    · unfold uploadRequestSrv
      rw [if_neg (by omega)]
      simp

/-- Witness for C10: a 2 000 000 000-byte file is rejected, a 5-byte file is
not. -/
theorem upload_size_limit_witness :
    (uploadRequestIx 7 "account1".data "a".data "f.png".data 2000000000 envOkEx stEmptyEx =
      (.fileTooLarge, stEmptyEx, []) ∧
     uploadRequestSrv 7 "account1".data (some "a".data) "f.png".data "image/png".data
       2000000000 none senvEnrichFailEx = none) ∧
    ((uploadRequestIx 7 "account1".data "a".data "f.png".data 5 envOkEx stEmptyEx).1 ≠
      .fileTooLarge ∧
     (uploadRequestSrv 7 "account1".data (some "a".data) "f.png".data "image/png".data
       5 none senvEnrichFailEx).isSome) :=
  ⟨(upload_size_limit 7 "account1".data "a".data "f.png".data 2000000000 envOkEx stEmptyEx
      "image/png".data (some "a".data) none senvEnrichFailEx).1 (by decide),
   (upload_size_limit 7 "account1".data "a".data "f.png".data 5 envOkEx stEmptyEx
      "image/png".data (some "a".data) none senvEnrichFailEx).2 (by decide)⟩

/-! ### C2: successful mutations drop the listing cache entry -/

/-- C2: every successful mutating operation of the gateway — upload, file
deletion, and rename (whose second phase is the delete) — leaves the state
with no listing-cache entry for the account, so the next `listFiles` cannot
serve data older than the mutation. -/
theorem mutation_invalidates_listing_cache :
    (∀ (now : Nat) (account title origName : Str) (env : RemoteEnv)
      (st : GatewayState) (url fn fid : Str),
      (uploadHandlerIx now account title origName env st).1 = .success url fn fid →
      mapFind (uploadHandlerIx now account title origName env st).2.1.fileListCache
        (listKey account) = none) ∧
    (∀ (account fileId fileName : Str) (env : RemoteEnv) (st : GatewayState),
      (deleteHandlerIx account fileId fileName env st).1 = .success →
      mapFind (deleteHandlerIx account fileId fileName env st).2.1.fileListCache
        (listKey account) = none) ∧
    (∀ (account fileId oldFileName newTitle : Str) (env : RemoteEnv)
      (st : GatewayState) (nfn nfid : Str),
      (renameHandlerIx account fileId oldFileName newTitle env st).1 = .success nfn nfid →
      mapFind (renameHandlerIx account fileId oldFileName newTitle env st).2.1.fileListCache
        (listKey account) = none) := by
  refine ⟨?_, ?_, ?_⟩
  · intro now account title origName env st url fn fid
    by_cases hv : account = [] ∨ title = []
    · simp [uploadHandlerIx, hv]
    · by_cases hc : configuredAccount account
      · rcases hga : getAuthToken account env st with ⟨res, st1, tr⟩
        cases res with
        | error e => simp [uploadHandlerIx, hv, hc, hga]
        | ok d =>
          by_cases hu : respOk env.uploadUrlStatus
          · by_cases hup : respOk env.uploadStatus
            · intro _
              simp [uploadHandlerIx, hv, hc, hga, hu, hup, mapFind_mapDelete]
            · simp [uploadHandlerIx, hv, hc, hga, hu, hup]
          · simp [uploadHandlerIx, hv, hc, hga, hu]
      · simp [uploadHandlerIx, hv, hc]
  · intro account fileId fileName env st
    by_cases hv : account = [] ∨ fileId = [] ∨ fileName = []
    · simp [deleteHandlerIx, hv]
    · by_cases hc : configuredAccount account
      · rcases hga : getAuthToken account env st with ⟨res, st1, tr⟩
        cases res with
        | error e => simp [deleteHandlerIx, hv, hc, hga]
        | ok d =>
          by_cases hd : respOk env.deleteStatus
          · intro _
            simp [deleteHandlerIx, hv, hc, hga, hd, mapFind_mapDelete]
          · simp [deleteHandlerIx, hv, hc, hga, hd]
      · simp [deleteHandlerIx, hv, hc]
  · intro account fileId oldFileName newTitle env st nfn nfid
    by_cases hv : account = [] ∨ fileId = [] ∨ oldFileName = [] ∨ newTitle = []
    · simp [renameHandlerIx, hv]
    · by_cases hc : configuredAccount account
      · rcases hga : getAuthToken account env st with ⟨res, st1, tr⟩
        cases res with
        | error e => simp [renameHandlerIx, hv, hc, hga]
        | ok d =>
          by_cases hcp : respOk env.copyStatus
          · by_cases hd : respOk env.deleteStatus
            · intro _
              simp [renameHandlerIx, hv, hc, hga, hcp, hd, mapFind_mapDelete]
            · simp [renameHandlerIx, hv, hc, hga, hcp, hd]
          · simp [renameHandlerIx, hv, hc, hga, hcp]
      · simp [renameHandlerIx, hv, hc]

/-- Witness for C2: a concrete successful upload, delete, and rename each
leave no listing-cache entry for `account1`. -/
theorem mutation_invalidates_listing_cache_witness :
    mapFind (uploadHandlerIx 7 "account1".data "a".data "f.png".data envOkEx
        stTokEx).2.1.fileListCache (listKey "account1".data) = none ∧
    mapFind (deleteHandlerIx "account1".data "id1".data "files/a_1.png".data envOkEx
        stTokEx).2.1.fileListCache (listKey "account1".data) = none ∧
    mapFind (renameHandlerIx "account1".data "id1".data "a_111.png".data "b".data envOkEx
        stTokEx).2.1.fileListCache (listKey "account1".data) = none :=
  ⟨mutation_invalidates_listing_cache.1 7 "account1".data "a".data "f.png".data envOkEx
      stTokEx "/files/account1/a_7.png".data "a_7.png".data "up1".data (by decide),
   mutation_invalidates_listing_cache.2.1 "account1".data "id1".data "files/a_1.png".data
      envOkEx stTokEx (by decide),
   mutation_invalidates_listing_cache.2.2 "account1".data "id1".data "a_111.png".data
      "b".data envOkEx stTokEx "b_111.png".data "cp1".data (by decide)⟩

/-! ### C9: listing failures degrade to an empty list -/

/-- C9: whenever `listFiles` cannot serve a fresh cache entry and the fetch
fails — unknown account or rejected authorization (with no cached token), or
a non-2xx listing response — the route returns `[]` and writes nothing into
the listing cache, indistinguishable from an account with no files. -/
theorem listing_failure_returns_empty (now : Nat) (account : Str)
    (env : RemoteEnv) (st : GatewayState)
    (hstale : mapFind st.fileListCache (listKey account) = none ∨
      ∃ ts files, mapFind st.fileListCache (listKey account) = some (ts, files) ∧
        ¬ (now - ts < FILE_CACHE_TTL))
    (hfail : (mapFind st.authTokenCache account = none ∧
        (configuredAccount account = false ∨ respOk env.authStatus = false)) ∨
      respOk env.listStatus = false) :
    (listFilesRun now account env st).1 = [] ∧
    (listFilesRun now account env st).2.1.fileListCache = st.fileListCache := by
  have main : (listFetch now account env st).1 = [] ∧
      (listFetch now account env st).2.1.fileListCache = st.fileListCache := by
    cases hfind : mapFind st.authTokenCache account with
    | some d =>
      have hl : respOk env.listStatus = false := by
        rcases hfail with ⟨hn, _⟩ | hl
        · rw [hfind] at hn; cases hn
        · exact hl
      simp [listFetch, getAuthToken, hfind, hl]
    | none =>
      by_cases hc : configuredAccount account
      · by_cases ha : respOk env.authStatus
        · have hl : respOk env.listStatus = false := by
            rcases hfail with ⟨_, hx | hx⟩ | hl
            · rw [hc] at hx; cases hx
            · rw [ha] at hx; cases hx
            · exact hl
          simp [listFetch, getAuthToken, hfind, hc, ha, hl]
        · simp [listFetch, getAuthToken, hfind, hc, ha]
      · simp [listFetch, getAuthToken, hfind, hc]
  rcases hstale with hnone | ⟨ts, files, hsome, hstale2⟩
  · have hrun : listFilesRun now account env st = listFetch now account env st := by
      unfold listFilesRun
      rw [hnone]
    rw [hrun]
    exact main
  · have hrun : listFilesRun now account env st = listFetch now account env st := by
      unfold listFilesRun
      rw [hsome]
      exact if_neg hstale2
    rw [hrun]
    exact main

/-- Witness for C9: a 500 listing response with a cached token yields `[]`
and an unchanged listing cache. -/
theorem listing_failure_returns_empty_witness :
    (listFilesRun 100 "account1".data envList500Ex stTokEx).1 = [] ∧
    (listFilesRun 100 "account1".data envList500Ex stTokEx).2.1.fileListCache =
      stTokEx.fileListCache :=
  listing_failure_returns_empty 100 "account1".data envList500Ex stTokEx
    (Or.inl (by decide)) (Or.inr (by decide))

/-! ### C1: no token invalidation and no retry on rejected authorization -/

/-- C1 (amended): when a remote call's response rejects the authorization
(any non-2xx status, including 401), the gateway neither invalidates the
cached `AuthContext` nor retries: the listing run performs exactly one
`b2_list_file_names` call, swallows the error into `[]`, and leaves the
state — including the cached token — untouched; the delete route likewise
performs its single call and surfaces the upstream error with the token
still cached. -/
theorem auth_reject_no_retry :
    (∀ (now : Nat) (account : Str) (env : RemoteEnv) (st : GatewayState) (d : AuthData),
      mapFind st.fileListCache (listKey account) = none →
      mapFind st.authTokenCache account = some d →
      respOk env.listStatus = false →
      listFilesRun now account env st = ([], st, [.listFileNames])) ∧
    (∀ (account fileId fileName : Str) (env : RemoteEnv) (st : GatewayState) (d : AuthData),
      ¬ (account = [] ∨ fileId = [] ∨ fileName = []) →
      configuredAccount account = true →
      mapFind st.authTokenCache account = some d →
      respOk env.deleteStatus = false →
      deleteHandlerIx account fileId fileName env st =
        (.serverError "Failed to delete file from B2".data, st,
         [.deleteFileVersion fileId fileName])) := by
  constructor
  · intro now account env st d hmiss htok hl
    simp [listFilesRun, listFetch, getAuthToken, hmiss, htok, hl]
  · intro account fileId fileName env st d hv hc htok hd
    simp [deleteHandlerIx, getAuthToken, hv, hc, htok, hd]

/-- Counterexample for C1 as stated: with a cached token and a 401 listing
response, the gateway does not issue the listing call twice. -/
theorem auth_reject_no_retry_cex : ¬ claimAuthRetry := by
  intro h
  have h2 := h 100 "account1".data env401Ex stTokEx (by decide) (by decide) (by decide)
  exact absurd h2 (by decide)

/-- Witness for C1 (amended) at a cached token and 401 responses. -/
theorem auth_reject_no_retry_witness :
    listFilesRun 100 "account1".data env401Ex stTokEx =
      ([], stTokEx, [.listFileNames]) ∧
    deleteHandlerIx "account1".data "id1".data "files/a_1.png".data envDel401Ex stTokEx =
      (.serverError "Failed to delete file from B2".data, stTokEx,
       [.deleteFileVersion "id1".data "files/a_1.png".data]) :=
  ⟨auth_reject_no_retry.1 100 "account1".data env401Ex stTokEx tokEx
      (by decide) (by decide) (by decide),
   auth_reject_no_retry.2 "account1".data "id1".data "files/a_1.png".data envDel401Ex
      stTokEx tokEx (by decide) (by decide) (by decide) (by decide)⟩

/-! ### C3: rename copies then deletes, but reuses the old timestamp -/

/-- C3 (amended): a successful rename copies the object to
`files/<sanitized(newTitle)>_<oldTimestamp>.<oldExt>` — the timestamp and
extension segments are parsed out of the old storage key, no fresh timestamp
is taken — and then deletes the old key, in that order. -/
theorem rename_copy_then_delete (account fileId oldFileName newTitle : Str)
    (env : RemoteEnv) (st : GatewayState) (d : AuthData)
    (hv : ¬ (account = [] ∨ fileId = [] ∨ oldFileName = [] ∨ newTitle = []))
    (hc : configuredAccount account = true)
    (htok : mapFind st.authTokenCache account = some d)
    (hcp : respOk env.copyStatus = true) (hd : respOk env.deleteStatus = true) :
    renameHandlerIx account fileId oldFileName newTitle env st =
      (.success (renameNewFileName oldFileName newTitle) env.copyFileId,
       { st with fileListCache := mapDelete st.fileListCache (listKey account) },
       [.copyFile fileId ("files/".data ++ renameNewFileName oldFileName newTitle),
        .deleteFileVersion fileId ("files/".data ++ oldFileName)]) ∧
    renameNewFileName oldFileName newTitle =
      sanitizeTitleIx newTitle ++ '_' :: renameTsOf oldFileName
        ++ '.' :: renameExtOf oldFileName := by
  refine ⟨?_, rfl⟩
  simp [renameHandlerIx, getAuthToken, hv, hc, htok, hcp, hd]

/-- Counterexample for C3 as stated: renaming `files/a_111.png` to `"b"` at
clock value 222 copies to `files/b_111.png`, not to `files/b_222.png`. -/
theorem rename_copy_then_delete_cex : ¬ claimRenameFreshTs := by
  intro h
  have h2 := h 222 "id1".data (by decide)
  exact absurd h2 (by decide)

/-- Witness for C3 (amended) on the rename of `files/a_111.png` to `"b"`. -/
theorem rename_copy_then_delete_witness :
    renameHandlerIx "account1".data "id1".data "a_111.png".data "b".data envOkEx stTokEx =
      (.success (renameNewFileName "a_111.png".data "b".data) envOkEx.copyFileId,
       { stTokEx with
          fileListCache := mapDelete stTokEx.fileListCache (listKey "account1".data) },
       [.copyFile "id1".data ("files/".data ++ renameNewFileName "a_111.png".data "b".data),
        .deleteFileVersion "id1".data ("files/".data ++ "a_111.png".data)]) :=
  (rename_copy_then_delete "account1".data "id1".data "a_111.png".data "b".data envOkEx
    stTokEx tokEx (by decide) (by decide) (by decide) (by decide) (by decide)).1

/-! ### C4: a failed commit after a successful upload does no cleanup -/

/-- C4 (amended): when the database write fails after the remote upload
succeeded, the route surfaces the commit error (HTTP 500) and unlinks the
staged temp file, but issues no remote delete — the uploaded object is left
orphaned with no cleanup attempt. -/
theorem commit_failure_no_cleanup (now : Nat) (account : Str) (title : Option Str)
    (origName mimetype : Str) (size : Nat) (folderId : Option Str) (env : SrvEnv)
    (hacc : account ≠ []) (hc : configuredAccount account = true)
    (hu : respOk env.uploadUrlStatus = true) (hup : respOk env.uploadStatus = true)
    (hsave : env.saveOk = false) :
    (serverUploadRun now account title origName mimetype size folderId env).1 =
      .serverError env.saveErr ∧
    ((serverUploadRun now account title origName mimetype size folderId env).2.any
      (fun a => SrvAction.isB2Upload a)) = true ∧
    ((serverUploadRun now account title origName mimetype size folderId env).2.contains
      SrvAction.unlinkTemp) = true ∧
    ((serverUploadRun now account title origName mimetype size folderId env).2.any
      (fun a => SrvAction.isB2Delete a)) = false := by
  by_cases hvid : isPre "video/".data mimetype
  · cases hpd : env.probeDuration with
    | none =>
      by_cases ht : env.thumbOk <;>
        simp [serverUploadRun, hacc, hc, hu, hup, hsave, hvid, hpd, ht,
          SrvAction.isB2Upload, SrvAction.isB2Delete]
    | some dv =>
      by_cases hd0 : dv = 0 <;> by_cases ht : env.thumbOk <;>
        simp [serverUploadRun, hacc, hc, hu, hup, hsave, hvid, hpd, hd0, ht,
          SrvAction.isB2Upload, SrvAction.isB2Delete]
  · simp [serverUploadRun, hacc, hc, hu, hup, hsave, hvid,
      SrvAction.isB2Upload, SrvAction.isB2Delete]

/-- Counterexample for C4 as stated: a concrete failed commit after a
successful upload leaves a trace without any remote delete. -/
theorem commit_failure_no_cleanup_cex : ¬ claimCommitCleanup := by
  intro h
  have h2 := h 7 "account1".data (some "pic".data) "p.png".data "image/png".data 4 none
    senvSaveFailEx (by decide) (by decide) (by decide) (by decide) (by decide)
  exact absurd h2 (by decide)

/-- Witness for C4 (amended) at the concrete failed commit. -/
theorem commit_failure_no_cleanup_witness :
    (serverUploadRun 7 "account1".data (some "pic".data) "p.png".data "image/png".data 4
      none senvSaveFailEx).1 = .serverError senvSaveFailEx.saveErr ∧
    ((serverUploadRun 7 "account1".data (some "pic".data) "p.png".data "image/png".data 4
      none senvSaveFailEx).2.any (fun a => SrvAction.isB2Upload a)) = true ∧
    ((serverUploadRun 7 "account1".data (some "pic".data) "p.png".data "image/png".data 4
      none senvSaveFailEx).2.contains SrvAction.unlinkTemp) = true ∧
    ((serverUploadRun 7 "account1".data (some "pic".data) "p.png".data "image/png".data 4
      none senvSaveFailEx).2.any (fun a => SrvAction.isB2Delete a)) = false :=
  commit_failure_no_cleanup 7 "account1".data (some "pic".data) "p.png".data
    "image/png".data 4 none senvSaveFailEx (by decide) (by decide) (by decide)
    (by decide) (by decide)

/-! ### C8: failed video enrichment never fails the upload -/

/-- C8: for every video upload in which duration probing or thumbnail
generation (or both) fail, the `FileRecord` is still committed and the route
reports success (201), with `duration = null` whenever probing failed and
`thumbnailUrl = null` whenever thumbnailing failed; the enrichment failure is
never propagated to the client. -/
theorem video_enrichment_failure_commits (now : Nat) (account : Str)
    (title : Option Str) (origName mimetype : Str) (size : Nat)
    (folderId : Option Str) (env : SrvEnv)
    (hacc : account ≠ []) (hc : configuredAccount account = true)
    (hvid : isPre "video/".data mimetype = true)
    (hfail : env.probeDuration = none ∨ env.thumbOk = false)
    (hu : respOk env.uploadUrlStatus = true) (hup : respOk env.uploadStatus = true)
    (hsave : env.saveOk = true) :
    ∃ rec,
      (serverUploadRun now account title origName mimetype size folderId env).1 =
        .created rec ∧
      SrvAction.saveRecord rec ∈
        (serverUploadRun now account title origName mimetype size folderId env).2 ∧
      (env.probeDuration = none → rec.duration = none) ∧
      (env.thumbOk = false → rec.thumbnailUrl = none) := by
  rcases hrun : serverUploadRun now account title origName mimetype size folderId env
    with ⟨res, tr⟩
  cases hpd : env.probeDuration with
  | none =>
    cases hthumb : env.thumbOk with
    | true =>
      simp [serverUploadRun, hacc, hc, hvid, hpd, hthumb, hu, hup, hsave] at hrun
      obtain ⟨h1, h2⟩ := hrun
      subst h1
      subst h2
      exact ⟨_, rfl, by simp, fun _ => rfl, fun h => Bool.noConfusion h⟩
    | false =>
      simp [serverUploadRun, hacc, hc, hvid, hpd, hthumb, hu, hup, hsave] at hrun
      obtain ⟨h1, h2⟩ := hrun
      subst h1
      subst h2
      exact ⟨_, rfl, by simp, fun _ => rfl, fun _ => rfl⟩
  | some dv =>
    have hthumb : env.thumbOk = false := by
      rcases hfail with h | h
      · rw [hpd] at h
        exact Option.noConfusion h
      · exact h
    by_cases hd0 : dv = 0
    · simp [serverUploadRun, hacc, hc, hvid, hpd, hd0, hthumb, hu, hup, hsave] at hrun
      obtain ⟨h1, h2⟩ := hrun
      subst h1
      subst h2
      refine ⟨_, rfl, by simp, ?_, fun _ => rfl⟩
      intro h
      exact Option.noConfusion h
    · simp [serverUploadRun, hacc, hc, hvid, hpd, hd0, hthumb, hu, hup, hsave] at hrun
      obtain ⟨h1, h2⟩ := hrun
      subst h1
      subst h2
      refine ⟨_, rfl, by simp, ?_, fun _ => rfl⟩
      intro h
      exact Option.noConfusion h

/-- Witness for C8: one video upload where probing and thumbnailing both
fail, and one where probing succeeds (duration 5) but thumbnailing fails;
both commit with success, with null fields exactly for the failed steps. -/
theorem video_enrichment_failure_commits_witness :
    (∃ rec,
      (serverUploadRun 7 "account1".data (some "vid".data) "v.mp4".data
        "video/mp4".data 4 none senvEnrichFailEx).1 = .created rec ∧
      SrvAction.saveRecord rec ∈
        (serverUploadRun 7 "account1".data (some "vid".data) "v.mp4".data
          "video/mp4".data 4 none senvEnrichFailEx).2 ∧
      (senvEnrichFailEx.probeDuration = none → rec.duration = none) ∧
      (senvEnrichFailEx.thumbOk = false → rec.thumbnailUrl = none)) ∧
    (∃ rec,
      (serverUploadRun 7 "account1".data (some "vid".data) "v.mp4".data
        "video/mp4".data 4 none senvThumbFailEx).1 = .created rec ∧
      SrvAction.saveRecord rec ∈
        (serverUploadRun 7 "account1".data (some "vid".data) "v.mp4".data
          "video/mp4".data 4 none senvThumbFailEx).2 ∧
      (senvThumbFailEx.probeDuration = none → rec.duration = none) ∧
      (senvThumbFailEx.thumbOk = false → rec.thumbnailUrl = none)) :=
  ⟨video_enrichment_failure_commits 7 "account1".data (some "vid".data) "v.mp4".data
    "video/mp4".data 4 none senvEnrichFailEx (by decide) (by decide) (by decide)
    (Or.inl (by decide)) (by decide) (by decide) (by decide),
   video_enrichment_failure_commits 7 "account1".data (some "vid".data) "v.mp4".data
    "video/mp4".data 4 none senvThumbFailEx (by decide) (by decide) (by decide)
    (Or.inr (by decide)) (by decide) (by decide) (by decide)⟩

/-! ### C6: listings are sorted newest-first; no key tie-break exists -/

/-- C6 (amended): a listing assembled from a remote fetch is the remote
response's per-file views sorted by upload timestamp descending with a stable
sort; entries with equal timestamps keep the order the remote listing
returned them in — no storage-key tie-break is applied. -/
theorem listing_sorted_newest_first (now : Nat) (account : Str) (env : RemoteEnv)
    (st : GatewayState)
    (hmiss : mapFind st.fileListCache (listKey account) = none)
    (hauth : (∃ d, mapFind st.authTokenCache account = some d) ∨
      (configuredAccount account = true ∧ respOk env.authStatus = true))
    (hlist : respOk env.listStatus = true) :
    List.Sorted tsGe (listFilesRun now account env st).1 ∧
    (listFilesRun now account env st).1.Perm
      (env.listFilesResp.map (mkFileView account)) := by
  cases hfind : mapFind st.authTokenCache account with
  | some d =>
    simp only [listFilesRun, listFetch, getAuthToken, hmiss, hfind, hlist, if_true]
    exact ⟨List.sorted_insertionSort tsGe _, List.perm_insertionSort tsGe _⟩
  | none =>
    rcases hauth with ⟨d, hd⟩ | ⟨hc, ha⟩
    · rw [hfind] at hd; cases hd
    · simp only [listFilesRun, listFetch, getAuthToken, hmiss, hfind, hc, ha, hlist, if_true]
      exact ⟨List.sorted_insertionSort tsGe _, List.perm_insertionSort tsGe _⟩

/-- Counterexample for C6 as stated: two files with equal upload timestamps
arriving as `files/b_5.png, files/a_5.png` are returned in that order — not
in ascending storage-key order. -/
theorem listing_sorted_newest_first_cex : ¬ claimListTieBreak := by
  intro h
  have h2 := h 100 "account1".data envOkEx stEmptyEx (by decide)
  exact absurd h2 (by decide)

/-- Witness for C6 (amended) on the tied concrete listing. -/
theorem listing_sorted_newest_first_witness :
    List.Sorted tsGe (listFilesRun 100 "account1".data envOkEx stEmptyEx).1 ∧
    (listFilesRun 100 "account1".data envOkEx stEmptyEx).1.Perm
      (envOkEx.listFilesResp.map (mkFileView "account1".data)) :=
  listing_sorted_newest_first 100 "account1".data envOkEx stEmptyEx
    (by decide) (Or.inr ⟨by decide, by decide⟩) (by decide)

/-! ### C5: folder-path invariant, creation and rename -/

theorem concat_cancel_right {a b : Str} {x : Char} (h : a ++ [x] = b ++ [x]) :
    a = b := by
  have h2 := congrArg List.reverse h
  simp only [List.reverse_append, List.reverse_singleton, List.singleton_append] at h2
  injection h2 with _ h3
  simpa using congrArg List.reverse h3

theorem pre_append_right {a b : Str} (c : Str) (h : Pre a b) : Pre a (b ++ c) := by
  obtain ⟨t, rfl⟩ := h
  exact ⟨t ++ c, by simp⟩

/-- If `oldPath ++ "/"` reaches into `pp ++ "/" ++ nm` but is not a prefix of
`pp`, and `nm` is slash-free, then `oldPath = pp`.  This is the combinatorial
heart of the cascade analysis: a path-prefix match either identifies the
parent path exactly or forces a slash inside a folder name. -/
theorem pre_slash_cases {oldPath pp nm : Str}
    (hglue : Pre (oldPath ++ ['/']) (pp ++ '/' :: nm))
    (hnp : ¬ Pre (oldPath ++ ['/']) pp)
    (hnm : ('/' : Char) ∉ nm) : oldPath = pp := by
  have hb : Pre (pp ++ ['/']) (pp ++ '/' :: nm) := ⟨nm, by simp⟩
  rcases pre_comparable hglue hb with hab | hba
  · by_cases hl : (oldPath ++ ['/']).length ≤ pp.length
    · exact absurd (pre_of_pre_concat hab hl) hnp
    · have hlen := hab.length_le
      have heq : oldPath ++ ['/'] = pp ++ ['/'] :=
        pre_eq_of_length hab (by simp at hlen hl ⊢; omega)
      exact concat_cancel_right heq
  · obtain ⟨r, hr⟩ := hba
    cases hrev : r.reverse with
    | nil =>
      have hr0 : r = [] := by simpa using congrArg List.reverse hrev
      subst hr0
      simp only [List.append_nil] at hr
      exact (concat_cancel_right hr).symm
    | cons c rs =>
      exfalso
      have h2 := congrArg List.reverse hr
      simp only [List.reverse_append, List.reverse_singleton,
        List.singleton_append, List.cons_append] at h2
      rw [hrev] at h2
      simp only [List.cons_append] at h2
      injection h2 with hc _
      have hmemr : ('/' : Char) ∈ r := by
        rw [← List.mem_reverse, hrev, ← hc]
        exact List.mem_cons_self _ _
      have hpr : Pre r nm := by
        have h4 : Pre ((pp ++ ['/']) ++ r) ((pp ++ ['/']) ++ nm) := by
          rw [hr]
          have h5 : (pp ++ ['/']) ++ nm = pp ++ '/' :: nm := by simp
          rw [h5]
          exact hglue
        exact pre_cancel_left.mp h4
      exact hnm (mem_of_pre hpr hmemr)

theorem findFolder_spec {db : FolderDB} {i : Nat} {f : Folder}
    (h : findFolder db i = some f) : f ∈ db ∧ f.id = i := by
  unfold findFolder at h
  have h1 := List.mem_of_find?_eq_some h
  have h2 := List.find?_some h
  simp at h2
  exact ⟨h1, h2⟩

theorem folder_eq_of_id {db : FolderDB} (hn : (db.map Folder.id).Nodup)
    {a b : Folder} (ha : a ∈ db) (hb : b ∈ db) (hid : a.id = b.id) : a = b :=
  List.inj_on_of_nodup_map hn ha hb hid

theorem parentOk_none {db : FolderDB} {f : Folder} (h : f.parent = none) :
    ParentOk db f ↔ f.path = f.name := by
  unfold ParentOk
  rw [h]

theorem parentOk_some {db : FolderDB} {f : Folder} {p : Nat}
    (h : f.parent = some p) :
    ParentOk db f ↔ ∃ g ∈ db, g.id = p ∧ f.path = g.path ++ '/' :: f.name := by
  unfold ParentOk
  rw [h]

theorem parentOk_append {db : FolderDB} (l : FolderDB) {g : Folder}
    (h : ParentOk db g) : ParentOk (db ++ l) g := by
  cases hp : g.parent with
  | none => exact (parentOk_none hp).mpr ((parentOk_none hp).mp h)
  | some p =>
    obtain ⟨w, hw, hwid, hweq⟩ := (parentOk_some hp).mp h
    exact (parentOk_some hp).mpr ⟨w, List.mem_append_left l hw, hwid, hweq⟩

theorem applyRename_eq_map (db : FolderDB) (i : Nat) (oldPath np newName : Str) :
    applyRename db i oldPath np newName = db.map (updFolder i oldPath np newName) := by
  unfold applyRename updFolder
  rw [List.map_map]
  rfl

theorem updFolder_id (i : Nat) (o np nn : Str) (g : Folder) :
    (updFolder i o np nn g).id = g.id := by
  simp only [updFolder]
  split <;> split <;> rfl

theorem updFolder_of_ne_no_pre {i : Nat} {o np nn : Str} {g : Folder}
    (hgi : g.id ≠ i) (h : ¬ Pre (o ++ ['/']) g.path) :
    updFolder i o np nn g = g := by
  unfold updFolder
  rw [if_neg hgi]
  simp only []
  rw [if_neg (by simpa [isPre_iff] using h)]

theorem updFolder_of_ne_pre {i : Nat} {o np nn : Str} {g : Folder}
    (hgi : g.id ≠ i) (h : Pre (o ++ ['/']) g.path) :
    updFolder i o np nn g = { g with path := np ++ g.path.drop o.length } := by
  have ho : Pre o g.path := pre_trans ⟨['/'], rfl⟩ h
  unfold updFolder
  rw [if_neg hgi]
  simp only []
  rw [if_pos (by simpa [isPre_iff] using h), replaceFirst_of_pre np ho]

theorem updFolder_self {i : Nat} {o np nn : Str} {f : Folder}
    (hfi : f.id = i) (h : ¬ Pre (o ++ ['/']) np) :
    updFolder i o np nn f = { f with name := nn, path := np } := by
  unfold updFolder
  rw [if_pos hfi]
  simp only []
  rw [if_neg (by simpa [isPre_iff] using h)]

/-- C5 (amended): folder creation establishes the materialized-path invariant
`F.path = (F.parent ? F.parent.path + "/" + F.name : F.name)`; and
`renameFolder` preserves it and rewrites the path of every folder whose
stored path extends the old path (leaving all others untouched), provided
the collection has unique ids, folder names are slash-free, and no two
distinct folders share a materialized path — without the latter, the global
prefix-matched cascade rewrites unrelated folders (see the counterexample). -/
theorem folder_path_invariant :
    (∀ (db : FolderDB) (name : Str) (parent : Option Nat) (account : Str)
      (newId : Nat) (db' : FolderDB),
      createFolderRoute db name parent account newId = some db' →
      PathInv db → PathInv db') ∧
    (∀ (db : FolderDB) (i : Nat) (newName : Str) (db' : FolderDB),
      renameFolderRoute db i newName = some db' →
      PathInv db →
      (db.map Folder.id).Nodup →
      (∀ g ∈ db, ('/' : Char) ∉ g.name) →
      ('/' : Char) ∉ newName →
      (∀ g ∈ db, ∀ g2 ∈ db, g.path = g2.path → g.id = g2.id) →
      PathInv db' ∧
      ∀ f, findFolder db i = some f →
        ∀ np, newPathFor db f newName = some np →
        ∀ g ∈ db, g.id ≠ i →
          (Pre (f.path ++ ['/']) g.path →
            { g with path := np ++ g.path.drop f.path.length } ∈ db') ∧
          (¬ Pre (f.path ++ ['/']) g.path → g ∈ db')) := by
  constructor
  · intro db name parent account newId db' hroute hinv
    unfold createFolderRoute at hroute
    split at hroute
    · cases hroute
    · cases parent with
      | none =>
        simp only [Option.some.injEq] at hroute
        subst hroute
        intro g hg
        rcases List.mem_append.mp hg with hgl | hgr
        · exact parentOk_append _ (hinv g hgl)
        · simp only [List.mem_singleton] at hgr
          subst hgr
          exact (parentOk_none rfl).mpr rfl
      | some p =>
        cases hfp : findFolder db p with
        | none => simp only [hfp] at hroute; exact Option.noConfusion hroute
        | some pf =>
          simp only [hfp, Option.some.injEq] at hroute
          subst hroute
          intro g hg
          rcases List.mem_append.mp hg with hgl | hgr
          · exact parentOk_append _ (hinv g hgl)
          · simp only [List.mem_singleton] at hgr
            subst hgr
            exact (parentOk_some rfl).mpr
              ⟨pf, List.mem_append_left _ (findFolder_spec hfp).1,
               (findFolder_spec hfp).2, rfl⟩
  · intro db i newName db' hroute hinv hnodup hslash hnew hpathinj
    unfold renameFolderRoute at hroute
    split at hroute
    · cases hroute
    · cases hfind : findFolder db i with
      | none => simp only [hfind] at hroute; exact Option.noConfusion hroute
      | some f =>
        simp only [hfind] at hroute
        by_cases hplain : plainPattern f.path = true
        · rw [if_pos hplain] at hroute
          clear hplain
          cases hnp : newPathFor db f newName with
          | none => simp only [hnp] at hroute; exact Option.noConfusion hroute
          | some np =>
            simp only [hnp, Option.map_some', Option.some.injEq] at hroute
            subst hroute
            obtain ⟨hfmem, hfid⟩ := findFolder_spec hfind
            -- the shape of the new path and of f's old path
            have hshape : (f.parent = none ∧ np = newName ∧ f.path = f.name) ∨
                (∃ p pf, f.parent = some p ∧ pf ∈ db ∧ pf.id = p ∧ pf.id ≠ i ∧
                  np = pf.path ++ '/' :: newName ∧
                  f.path = pf.path ++ '/' :: f.name) := by
              have hfok := hinv f hfmem
              unfold newPathFor at hnp
              cases hfp : f.parent with
              | none =>
                rw [hfp] at hnp
                simp only [Option.some.injEq] at hnp
                exact Or.inl ⟨rfl, hnp.symm, (parentOk_none hfp).mp hfok⟩
              | some p =>
                rw [hfp] at hnp
                obtain ⟨w, hwmem, hwid, hweq⟩ := (parentOk_some hfp).mp hfok
                cases hfindp : findFolder db p with
                | none => simp only [hfindp] at hnp; exact Option.noConfusion hnp
                | some pf =>
                  simp only [hfindp, Option.map_some', Option.some.injEq] at hnp
                  obtain ⟨hpfmem, hpfid⟩ := findFolder_spec hfindp
                  have hwpf : w = pf :=
                    folder_eq_of_id hnodup hwmem hpfmem (by rw [hwid, hpfid])
                  subst hwpf
                  refine Or.inr ⟨p, w, rfl, hwmem, hwid, ?_, hnp.symm, hweq⟩
                  intro hwi
                  have hwf : w = f := folder_eq_of_id hnodup hwmem hfmem (by rw [hwi, hfid])
                  subst hwf
                  have hlen := congrArg List.length hweq
                  simp at hlen
            -- f's old path followed by "/" is never a prefix of the parent path
            have hparfree : ∀ pf : Folder, f.path = pf.path ++ '/' :: f.name →
                ¬ Pre (f.path ++ ['/']) pf.path := by
              intro pf hfpath hp2
              have hl := hp2.length_le
              have hlen := congrArg List.length hfpath
              simp at hlen hl
              omega
            -- the rename never rewrites the fresh path again
            have hKP : ¬ Pre (f.path ++ ['/']) np := by
              rcases hshape with ⟨_, hnpv, hfpath⟩ | ⟨p, pf, _, _, _, _, hnpv, hfpath⟩
              · intro hpre
                obtain ⟨t, ht⟩ := hpre
                apply hnew
                rw [← hnpv, ← ht, hfpath]
                simp
              · intro hpre
                rw [hnpv] at hpre
                have heq : f.path = pf.path :=
                  pre_slash_cases hpre (hparfree pf hfpath) hnew
                have hlen := congrArg List.length hfpath
                rw [heq] at hlen
                simp at hlen
            set upd := updFolder i f.path np newName with hupd
            have hFP : upd f = { f with name := newName, path := np } :=
              updFolder_self hfid hKP
            have hdb' : applyRename db i f.path np newName = db.map upd :=
              applyRename_eq_map db i f.path np newName
            rw [hdb']
            constructor
            · -- invariant preservation
              intro g' hg'
              obtain ⟨g, hg, rfl⟩ := List.mem_map.mp hg'
              by_cases hgi : g.id = i
              · have hgf : g = f := folder_eq_of_id hnodup hg hfmem (by rw [hgi, hfid])
                rw [hgf, hFP]
                rcases hshape with ⟨hfp, hnpv, _⟩ | ⟨p, pf, hfp, hpfmem, hpfid, hpfne, hnpv, hfpath⟩
                · exact (parentOk_none
                    (show ({ f with name := newName, path := np } : Folder).parent = none
                      from hfp)).mpr hnpv
                · refine (parentOk_some
                    (show ({ f with name := newName, path := np } : Folder).parent = some p
                      from hfp)).mpr
                    ⟨upd pf, List.mem_map.mpr ⟨pf, hpfmem, rfl⟩, ?_, ?_⟩
                  · rw [hupd, updFolder_id, hpfid]
                  · rw [hupd, updFolder_of_ne_no_pre hpfne (hparfree pf hfpath)]
                    exact hnpv
              · have hgok := hinv g hg
                cases hgp : g.parent with
                | none =>
                  have hgeq := (parentOk_none hgp).mp hgok
                  have hnopre : ¬ Pre (f.path ++ ['/']) g.path := by
                    intro hpre
                    obtain ⟨t, ht⟩ := hpre
                    apply hslash g hg
                    rw [← hgeq, ← ht]
                    simp
                  rw [hupd, updFolder_of_ne_no_pre hgi hnopre]
                  exact (parentOk_none hgp).mpr hgeq
                | some p =>
                  obtain ⟨P, hPmem, hPid, hgpath⟩ := (parentOk_some hgp).mp hgok
                  by_cases hPi : P.id = i
                  · have hPf : P = f := folder_eq_of_id hnodup hPmem hfmem (by rw [hPi, hfid])
                    rw [hPf] at hgpath hPid
                    have hpre : Pre (f.path ++ ['/']) g.path :=
                      ⟨g.name, by rw [hgpath]; simp⟩
                    rw [hupd, updFolder_of_ne_pre hgi hpre]
                    refine (parentOk_some
                      (show ({ g with path := np ++ g.path.drop f.path.length } : Folder).parent
                        = some p from hgp)).mpr
                      ⟨upd f, List.mem_map.mpr ⟨f, hfmem, rfl⟩,
                       by rw [hupd, updFolder_id]; exact hPid, ?_⟩
                    simp only [← hupd, hFP]
                    show np ++ g.path.drop f.path.length = np ++ '/' :: g.name
                    rw [hgpath]
                    rw [show f.path ++ '/' :: g.name = f.path ++ ('/' :: g.name) from rfl,
                      List.drop_left]
                  · by_cases hPpre : Pre (f.path ++ ['/']) P.path
                    · have hgpre : Pre (f.path ++ ['/']) g.path := by
                        rw [hgpath]
                        exact pre_append_right ('/' :: g.name) hPpre
                      rw [hupd, updFolder_of_ne_pre hgi hgpre]
                      refine (parentOk_some
                        (show ({ g with path := np ++ g.path.drop f.path.length } : Folder).parent
                          = some p from hgp)).mpr
                        ⟨upd P, List.mem_map.mpr ⟨P, hPmem, rfl⟩,
                         by rw [hupd, updFolder_id]; exact hPid, ?_⟩
                      rw [hupd, updFolder_of_ne_pre hPi hPpre]
                      show np ++ g.path.drop f.path.length =
                        (np ++ P.path.drop f.path.length) ++ '/' :: g.name
                      have hlen : f.path.length ≤ P.path.length := by
                        have := hPpre.length_le
                        simp at this
                        omega
                      rw [hgpath, List.drop_append_of_le_length hlen, List.append_assoc]
                    · have hgnopre : ¬ Pre (f.path ++ ['/']) g.path := by
                        intro hpre
                        rw [hgpath] at hpre
                        have heq : f.path = P.path := pre_slash_cases hpre hPpre (hslash g hg)
                        exact hPi (by rw [hpathinj P hPmem f hfmem heq.symm, hfid])
                      rw [hupd, updFolder_of_ne_no_pre hgi hgnopre]
                      refine (parentOk_some hgp).mpr
                        ⟨upd P, List.mem_map.mpr ⟨P, hPmem, rfl⟩,
                         by rw [hupd, updFolder_id]; exact hPid, ?_⟩
                      rw [hupd, updFolder_of_ne_no_pre hPi hPpre]
                      exact hgpath
            · -- cascade characterization
              intro f2 hfind2 np2 hnp2 g hg hgi
              injection hfind2 with hf2
              subst hf2
              rw [hnp] at hnp2
              injection hnp2 with hnp2
              subst hnp2
              constructor
              · intro hpre
                exact List.mem_map.mpr ⟨g, hg,
                  by rw [hupd, updFolder_of_ne_pre hgi hpre]⟩
              · intro hnpre
                exact List.mem_map.mpr ⟨g, hg,
                  by rw [hupd, updFolder_of_ne_no_pre hgi hnpre]⟩

        · rw [if_neg hplain] at hroute
          exact Option.noConfusion hroute

/-- Counterexample for C5 as stated: three creations (each preserving the
invariant) build two same-named root folders in different accounts plus a
child; renaming one root then rewrites the other account's subtree by path
prefix, and the invariant no longer holds. -/
theorem folder_path_invariant_cex :
    (createFolderRoute [] "a".data none "account1".data 1 = some dbC1 ∧
     createFolderRoute dbC1 "a".data none "account2".data 2 = some dbC2 ∧
     createFolderRoute dbC2 "b".data (some 2) "account2".data 3 = some dbColl ∧
     PathInv dbColl ∧
     renameFolderRoute dbColl 1 "x".data = some dbCollRenamed ∧
     ¬ PathInv dbCollRenamed) ∧
    ¬ claimRenamePreservesInv := by
  constructor
  · exact ⟨by decide, by decide, by decide, by decide, by decide, by decide⟩
  · intro h
    exact absurd (h dbColl 1 "x".data dbCollRenamed (by decide) (by decide)) (by decide)

/-- Witness for C5 (amended): a concrete creation and a concrete rename with
all side conditions satisfied, both preserving the invariant. -/
theorem folder_path_invariant_witness :
    PathInv dbC1 ∧ PathInv dbPairRenamed :=
  ⟨folder_path_invariant.1 [] "a".data none "account1".data 1 dbC1
      (by decide) (by decide),
   (folder_path_invariant.2 dbPair 1 "c".data dbPairRenamed (by decide) (by decide)
      (by decide) (by decide) (by decide) (by decide)).1⟩

end FileManager
